import Mathlib

/-!
Verification of the multi-language source-function extraction and
documentation-detection engine of the reppy repository.

The definitions below are a shallow embedding of the scanner module
(the file holding SUPPORTED_LANGUAGES, getLanguageForFile, processFile,
getFunctionQuery, processMatchesAndCollect, isValidDocumentation,
processJavaScriptAST and getJSDocComment).  JavaScript strings are
embedded as Lean String values and the JavaScript string methods used by
the source (trim, startsWith, endsWith, includes, substring, split, join,
slice) are given explicit executable definitions over the character
lists.  Arrays become lists, the mutable accumulators (the per-file
functions array and the process-wide documentedFunctions array) become
explicitly returned lists, and exceptions become Except values.
-/

namespace Reppy

/-! ## Embeddings of the JavaScript string operations used by the source -/

/-- Characters dropped by the JavaScript trim operation, modelled by
Char.isWhitespace. -/
def trimChars (cs : List Char) : List Char :=
  ((cs.dropWhile Char.isWhitespace).reverse.dropWhile Char.isWhitespace).reverse

/-- Embedding of the JavaScript method trim. -/
def trimStr (s : String) : String := String.mk (trimChars s.toList)

/-- Embedding of the JavaScript method startsWith. -/
def startsWithStr (s pre : String) : Bool := pre.toList.isPrefixOf s.toList

/-- Embedding of the JavaScript method endsWith. -/
def endsWithStr (s suf : String) : Bool := suf.toList.isSuffixOf s.toList

/-- Whether the first list occurs contiguously inside the second. -/
def occursIn : List Char → List Char → Bool
  | sub, [] => sub.isEmpty
  | sub, c :: rest => sub.isPrefixOf (c :: rest) || occursIn sub rest

/-- Embedding of the JavaScript method includes. -/
def includesStr (s sub : String) : Bool := occursIn sub.toList s.toList

/-- Embedding of the JavaScript string length (code units; the inputs at
stake are ASCII, where code units and characters coincide). -/
def strLen (s : String) : Nat := s.toList.length

/-- Embedding of the JavaScript method substring with one argument. -/
def substrFrom (s : String) (n : Nat) : String := String.mk (s.toList.drop n)

/-- Splitting a character list at every occurrence of a separator
character; the result always has one more part than there are
separators. -/
def splitOnChar (sep : Char) : List Char → List (List Char)
  | [] => [[]]
  | c :: cs =>
    match splitOnChar sep cs with
    | [] => [[]]
    | line :: rest => if c = sep then [] :: line :: rest else (c :: line) :: rest

/-- Embedding of the JavaScript split on a newline. -/
def splitLines (s : String) : List String := ((splitOnChar '\n') s.toList).map String.mk

/-- Embedding of the JavaScript array join with a newline. -/
def joinLines : List String → String
  | [] => ""
  | [s] => s
  | s :: rest => s ++ "\n" ++ joinLines rest

/-- The expression sourceCode.split over newline, then slice(startLine,
endLine + 1), then join with newline, as written in the source for the
sourceCode field of an emitted record. -/
def sliceLines (sourceCode : String) (startLine endLine : Nat) : String :=
  joinLines (((splitLines sourceCode).drop startLine).take (endLine + 1 - startLine))

/-! ## Data model -/

/-- The LanguageKey union of the source: the keys of SUPPORTED_LANGUAGES. -/
inductive LanguageKey where
  | js | ts | python | rust | java | go
deriving DecidableEq, Repr

/-- The SUPPORTED_LANGUAGES table of the source, keeping only the data the
extraction logic reads: the key and its extension list (the grammar object
itself is an opaque external handle). -/
def SUPPORTED_LANGUAGES : List (LanguageKey × List String) :=
  [(.js, [".js", ".jsx"]),
   (.ts, [".ts", ".tsx"]),
   (.python, [".py"]),
   (.rust, [".rs"]),
   (.java, [".java"]),
   (.go, [".go"])]

/-- Index of the last occurrence of a character, counting from the given
offset; models the lastIndexOf step inside the node extname behaviour. -/
def lastIndexOfCharAux : List Char → Char → Nat → Option Nat
  | [], _, _ => none
  | x :: xs, c, i =>
    match lastIndexOfCharAux xs c (i + 1) with
    | some j => some j
    | none => if x = c then some i else none

/-- Embedding of node path.extname: the suffix of the basename from its
last dot, empty when the basename has no dot or only a leading dot. -/
def extname (p : String) : String :=
  let base := ((splitOnChar '/') p.toList).getLastD []
  match lastIndexOfCharAux base '.' 0 with
  | none => ""
  | some 0 => ""
  | some i => String.mk (base.drop i)

/-- getLanguageForFile from the source: find the first SUPPORTED_LANGUAGES
entry whose extension list holds the extension of the path. -/
def getLanguageForFile (filePath : String) : Option LanguageKey :=
  let ext := extname filePath
  (SUPPORTED_LANGUAGES.find? (fun c => c.2.contains ext)).map (fun c => c.1)

/-- A syntax-tree node as the extraction logic reads it: its grammar node
type, its source text and its zero-based line span. -/
structure Node where
  nodeType : String
  text : String
  startRow : Nat
  endRow : Nat
deriving DecidableEq, Repr

/-- One named capture of a query match. -/
structure Capture where
  name : String
  node : Node
deriving DecidableEq, Repr

/-- One match returned by the query engine. -/
structure QueryMatch where
  captures : List Capture
deriving DecidableEq, Repr

/-- The DocumentationValidation result of isValidDocumentation. -/
structure DocumentationValidation where
  isValid : Bool
  doc : Option String := none
deriving DecidableEq, Repr

/-- The Function record interface of the source.  The field node (an
opaque parser handle) is omitted: no extraction logic reads it. -/
structure Function where
  name : String
  filePath : String
  startLine : Nat
  endLine : Nat
  sourceCode : String
  isDocumented : Bool
  cleanedDoc : Option String
deriving DecidableEq, Repr

/-- The DocumentedFunction interface: the entries of the process-wide
documentedFunctions collection. -/
structure DocumentedFunction where
  name : String
  documentation : String
  filePath : String
deriving DecidableEq, Repr

/-! ## Documentation classifier -/

/-- isValidDocumentation from the source, branch for branch.  The guard on
a missing language or empty text comes first; every accepting branch
returns the trimmed text as the doc field. -/
def isValidDocumentation (commentText : String) (language : Option LanguageKey) :
    DocumentationValidation :=
  match language with
  | none => { isValid := false }
  | some lang =>
    if commentText = "" then { isValid := false }
    else
      let trimmedComment := trimStr commentText
      match lang with
      | .js | .ts =>
        if (startsWithStr trimmedComment "/**" && endsWithStr trimmedComment "*/") ||
           (startsWithStr trimmedComment "/*" && endsWithStr trimmedComment "*/") then
          { isValid := true, doc := some trimmedComment }
        else { isValid := false }
      | .python =>
        if includesStr commentText "\"\"\"" || startsWithStr trimmedComment "#" then
          { isValid := true, doc := some trimmedComment }
        else { isValid := false }
      | .rust =>
        if includesStr commentText "///" || includesStr commentText "//!" ||
           (includesStr commentText "/*" && includesStr commentText "*/") then
          { isValid := true, doc := some trimmedComment }
        else { isValid := false }
      | .java =>
        if startsWithStr trimmedComment "/**" || startsWithStr trimmedComment "/*" ||
           startsWithStr trimmedComment "//" then
          { isValid := true, doc := some trimmedComment }
        else { isValid := false }
      | .go =>
        if startsWithStr trimmedComment "//" && !includesStr trimmedComment "TODO" &&
           decide (2 < strLen trimmedComment) &&
           decide (0 < strLen (trimStr (substrFrom trimmedComment 2))) then
          { isValid := true, doc := some trimmedComment }
        else { isValid := false }

/-! ## Tree extraction engine: processMatchesAndCollect -/

/-- The template literal building the dedup key inside
processMatchesAndCollect: name, a dash, the start row. -/
def funcKeyOf (name : String) (row : Nat) : String := name ++ "-" ++ toString row

/-- The loop over docNodes inside processMatchesAndCollect: the first
validation accepted by isValidDocumentation, none when every candidate is
rejected. -/
def firstValidDoc : List Capture → Option LanguageKey → Option DocumentationValidation
  | [], _ => none
  | d :: rest, language =>
    let validation := isValidDocumentation d.node.text language
    if validation.isValid then some validation else firstValidDoc rest language

/-- The docNodes loop of processMatchesAndCollect for one match: filter
the doc captures, look up the language of the file, keep the first
accepted validation. -/
def matchFound (filePath : String) (m : QueryMatch) : Option DocumentationValidation :=
  let docNodes := m.captures.filter (fun capture => capture.name == "doc")
  let language := getLanguageForFile filePath
  firstValidDoc docNodes language

/-- The Function record pushed by processMatchesAndCollect for one
retained match: isDocumented is set when some doc capture was accepted,
cleanedDoc carries the accepted doc text. -/
def matchRecord (filePath sourceCode : String) (m : QueryMatch)
    (functionNode functionName : Capture) : Function :=
  { name := functionName.node.text
    filePath := filePath
    startLine := functionNode.node.startRow
    endLine := functionNode.node.endRow
    sourceCode := sliceLines sourceCode functionNode.node.startRow functionNode.node.endRow
    isDocumented := (matchFound filePath m).isSome
    cleanedDoc := (matchFound filePath m).bind (fun v => v.doc) }

/-- The documentedFunctions entries pushed by processMatchesAndCollect for
one retained match: exactly one when a doc capture was accepted, none
otherwise. -/
def matchNewDocs (filePath : String) (m : QueryMatch) (functionName : Capture) :
    List DocumentedFunction :=
  match matchFound filePath m with
  | some validation =>
    [{ name := functionName.node.text,
       documentation := validation.doc.getD "",
       filePath := filePath }]
  | none => []

/-- The forEach body of processMatchesAndCollect, with the mutable Set of
processed keys threaded as a list and the two mutated arrays (the per-file
functions array and the process-wide documentedFunctions array) returned
as the pair of emitted records and appended entries, in push order.  A
match missing the function or the function name capture is skipped; a
match whose key was seen is skipped; otherwise its record and entries
(matchRecord, matchNewDocs) are pushed and its key marked processed. -/
def processMatchesAux (filePath sourceCode : String) :
    List QueryMatch → List String → List Function × List DocumentedFunction
  | [], _ => ([], [])
  | m :: rest, processedFunctions =>
    match m.captures.find? (fun capture => capture.name == "function"),
          m.captures.find? (fun capture => capture.name == "function_name") with
    | some functionNode, some functionName =>
      if funcKeyOf functionName.node.text functionNode.node.startRow ∈ processedFunctions then
        processMatchesAux filePath sourceCode rest processedFunctions
      else
        let tailResult := processMatchesAux filePath sourceCode rest
          (funcKeyOf functionName.node.text functionNode.node.startRow :: processedFunctions)
        (matchRecord filePath sourceCode m functionNode functionName :: tailResult.1,
         matchNewDocs filePath m functionName ++ tailResult.2)
    | _, _ => processMatchesAux filePath sourceCode rest processedFunctions

/-- processMatchesAndCollect from the source: run the forEach with an
empty processed set, returning (emitted records, appended
documentedFunctions entries). -/
def processMatchesAndCollect (queryMatches : List QueryMatch) (filePath sourceCode : String) :
    List Function × List DocumentedFunction :=
  processMatchesAux filePath sourceCode queryMatches []

/-! ## Fallback extraction engine: processJavaScriptAST and getJSDocComment -/

/-- A JavaScript value as the generic AST walk reads it: strings, numbers,
objects with ordered fields, arrays.  The walk only distinguishes objects
and arrays (typeof object) from the rest. -/
inductive JSVal where
  | str (s : String)
  | num (n : Nat)
  | obj (fields : List (String × JSVal))
  | arr (elems : List JSVal)

/-- Property access on an object; none on any other value, matching the
undefined the source reads through optional chaining. -/
def JSVal.field? : JSVal → String → Option JSVal
  | .obj fields, key => (fields.find? (fun f => f.1 == key)).map (fun f => f.2)
  | _, _ => none

/-- A string-valued property. -/
def JSVal.strField? (v : JSVal) (key : String) : Option String :=
  match v.field? key with
  | some (.str s) => some s
  | _ => none

/-- node.loc.start.line respectively node.loc.end.line, when present. -/
def JSVal.locLine? (v : JSVal) (which : String) : Option Nat :=
  match ((v.field? "loc").bind (fun l => l.field? which)).bind (fun se => se.field? "line") with
  | some (.num n) => some n
  | _ => none

/-- JavaScript truthiness of a possibly-missing string: present and
non-empty. -/
def truthyStr : Option String → Bool
  | some s => s != ""
  | none => false

/-- The while loop of getJSDocComment.  The fuel argument is
currentLine + 1, so fuel n + 1 inspects line index n and fuel 0 is the
loop exit at currentLine below zero; docLines and insideComment are the
two mutable locals.  Lines are trimmed on read; a blank line is skipped; a
doc-block opener is collected and ends the scan; otherwise the line is
collected exactly when it is a continuation line (or the flag is set,
which never happens: the flag is only set right before the loop breaks)
and the loop breaks when the line is no continuation line. -/
def getJSDocCommentAux (lines : List String) : Nat → List String → Bool → List String
  | 0, docLines, _insideComment => docLines
  | n + 1, docLines, insideComment =>
    let line := trimStr (lines.getD n "")
    if line = "" then getJSDocCommentAux lines n docLines insideComment
    else if startsWithStr line "/**" then line :: docLines
    else
      let docLines2 :=
        if insideComment || startsWithStr line "*" || startsWithStr line "*/" then
          line :: docLines
        else docLines
      if !startsWithStr line "*" && !startsWithStr line "*/" && !insideComment then
        docLines2
      else getJSDocCommentAux lines n docLines2 insideComment

/-- The result shape of getJSDocComment. -/
structure JSDocResult where
  hasDoc : Bool
  docText : Option String
deriving DecidableEq, Repr

/-- getJSDocComment with the function start line already extracted: split
the source into lines, run the upward scan from the line above the
function, succeed exactly when at least one line was collected. -/
def getJSDocCommentAt (sourceCode : String) (functionStartLine : Nat) : JSDocResult :=
  let lines := splitLines sourceCode
  let docLines := getJSDocCommentAux lines functionStartLine [] false
  if 0 < docLines.length then { hasDoc := true, docText := some (joinLines docLines) }
  else { hasDoc := false, docText := none }

/-- getJSDocComment from the source: guard on a missing loc, then scan
upward from node.loc.start.line - 1. -/
def getJSDocComment (node : JSVal) (sourceCode : String) : JSDocResult :=
  match node.locLine? "start" with
  | none => { hasDoc := false, docText := none }
  | some l => getJSDocCommentAt sourceCode (l - 1)

/-- The four named-function shapes tested at the top of the traverse
closure inside processJavaScriptAST, truthiness included. -/
def isJSFunctionNode (node : JSVal) : Bool :=
  let typ := node.strField? "type"
  let idName := (node.field? "id").bind (fun i => i.strField? "name")
  let keyName := (node.field? "key").bind (fun k => k.strField? "name")
  let initType := (node.field? "init").bind (fun i => i.strField? "type")
  (typ == some "FunctionDeclaration" && truthyStr idName) ||
  (typ == some "MethodDefinition" && truthyStr keyName) ||
  (typ == some "FunctionExpression" && truthyStr idName) ||
  (typ == some "VariableDeclarator" && truthyStr idName &&
    (initType == some "ArrowFunctionExpression" || initType == some "FunctionExpression"))

/-- The functionName expression of traverse: node.id.name, else
node.key.name, else node.id.name again when an init is present, with
JavaScript truthiness at each step. -/
def jsNodeName (node : JSVal) : Option String :=
  let idName := (node.field? "id").bind (fun i => i.strField? "name")
  let keyName := (node.field? "key").bind (fun k => k.strField? "name")
  if truthyStr idName then idName
  else if truthyStr keyName then keyName
  else if (node.field? "init").isSome then idName
  else none

/-- The record-emitting body of traverse for one node: when the node is a
named function shape and its name is truthy, emit one Function record and,
when the upward scan found documentation with non-empty text, one
documentedFunctions entry.  A node without a loc is skipped (the parser
always attaches locations, so the source never meets that case). -/
def jsNodeRecord (sourceCode filePath : String) (node : JSVal) :
    List Function × List DocumentedFunction :=
  if isJSFunctionNode node then
    if truthyStr (jsNodeName node) then
      match node.locLine? "start", node.locLine? "end" with
      | some ls, some le =>
        let functionName := (jsNodeName node).getD ""
        let startLine := ls - 1
        let endLine := le - 1
        let docResult := getJSDocComment node sourceCode
        let isDocumented := docResult.hasDoc
        let newDocs : List DocumentedFunction :=
          if isDocumented && truthyStr docResult.docText then
            [{ name := functionName,
               documentation := docResult.docText.getD "",
               filePath := filePath }]
          else []
        ([{ name := functionName
            filePath := filePath
            startLine := startLine
            endLine := endLine
            sourceCode := sliceLines sourceCode startLine endLine
            isDocumented := isDocumented
            cleanedDoc := docResult.docText }],
         newDocs)
      | _, _ => ([], [])
    else ([], [])
  else ([], [])

mutual
/-- The traverse closure of processJavaScriptAST: process the node itself,
then recurse into every object-valued property in insertion order. -/
def traverseVal (sourceCode filePath : String) : JSVal → List Function × List DocumentedFunction
  | JSVal.obj fields =>
    let own := jsNodeRecord sourceCode filePath (JSVal.obj fields)
    let children := traverseFields sourceCode filePath fields
    (own.1 ++ children.1, own.2 ++ children.2)
  | JSVal.arr elems => traverseElems sourceCode filePath elems
  | _ => ([], [])
/-- The for-in loop of traverse over the properties of an object:
recurse into each value of typeof object. -/
def traverseFields (sourceCode filePath : String) :
    List (String × JSVal) → List Function × List DocumentedFunction
  | [] => ([], [])
  | (_, value) :: rest =>
    let first :=
      match value with
      | JSVal.obj _ | JSVal.arr _ => traverseVal sourceCode filePath value
      | _ => ([], [])
    let others := traverseFields sourceCode filePath rest
    (first.1 ++ others.1, first.2 ++ others.2)
/-- The for-in loop of traverse over the indices of an array. -/
def traverseElems (sourceCode filePath : String) :
    List JSVal → List Function × List DocumentedFunction
  | [] => ([], [])
  | value :: rest =>
    let first :=
      match value with
      | JSVal.obj _ | JSVal.arr _ => traverseVal sourceCode filePath value
      | _ => ([], [])
    let others := traverseElems sourceCode filePath rest
    (first.1 ++ others.1, first.2 ++ others.2)
end

/-- processJavaScriptAST from the source: run traverse from the root,
returning (emitted records, appended documentedFunctions entries); the
lintMessages argument is never read by the walk and is dropped. -/
def processJavaScriptAST (ast : JSVal) (sourceCode filePath : String) :
    List Function × List DocumentedFunction :=
  traverseVal sourceCode filePath ast

/-! ## Per-file processing and the multi-file scan -/

/-- One file as processFile sees it: its path, its text and the outcome of
the fallible read-parse-query step (reading the file, setting the grammar,
parsing and running the query), embedded as an Except so that the thrown
error carries the message the catch block logs. -/
structure FileInput where
  path : String
  sourceCode : String
  parsed : Except String (List QueryMatch)
deriving Repr

/-- The try-catch of processFile: on success the records and entries of
processMatchesAndCollect and no diagnostic, on a parse failure zero
records, zero entries and the logged per-file diagnostic naming the
file. -/
def processFileModel (f : FileInput) :
    (List Function × List DocumentedFunction) × Option String :=
  match f.parsed with
  | .ok queryMatches => (processMatchesAndCollect queryMatches f.path f.sourceCode, none)
  | .error msg => (([], []), some ("Error processing " ++ f.path ++ ": " ++ msg))

/-- The multi-file loop of parseAndDocument restricted to extraction: each
file is processed to completion, its records kept per file, its
documentedFunctions entries appended to the process-wide collection and
its diagnostic, if any, logged; no failure stops the loop. -/
def scanFiles : List FileInput → List (List Function) × List DocumentedFunction × List String
  | [] => ([], [], [])
  | f :: rest =>
    let fileResult := processFileModel f
    let tailResult := scanFiles rest
    (fileResult.1.1 :: tailResult.1,
     fileResult.1.2 ++ tailResult.2.1,
     (match fileResult.2 with | some e => [e] | none => []) ++ tailResult.2.2)

/-! ## Helper lemmas -/

lemma trimChars_eq_nil_iff (cs : List Char) :
    trimChars cs = [] ↔ ∀ c ∈ cs, c.isWhitespace = true := by
  unfold trimChars
  rw [List.reverse_eq_nil_iff, List.dropWhile_eq_nil_iff]
  constructor
  · intro h c hc
    have hsplit := List.takeWhile_append_dropWhile (p := Char.isWhitespace) (l := cs)
    rcases List.mem_append.mp (by rw [hsplit]; exact hc) with h1 | h2
    · exact List.mem_takeWhile_imp h1
    · exact h c (List.mem_reverse.mpr h2)
  · intro h c hc
    exact h c ((List.dropWhile_sublist _).mem (List.mem_reverse.mp hc))

lemma strLen_trimStr_pos_iff (s : String) :
    0 < strLen (trimStr s) ↔ ∃ c ∈ s.toList, c.isWhitespace = false := by
  have hlen : strLen (trimStr s) = (trimChars s.toList).length := rfl
  rw [hlen, List.length_pos, Ne, trimChars_eq_nil_iff]
  push_neg
  simp [Bool.not_eq_true]

lemma string_toList_eq_nil_iff (s : String) : s.toList = [] ↔ s = "" := by
  constructor
  · intro h
    calc s = String.mk s.toList := rfl
    _ = String.mk [] := by rw [h]
    _ = "" := rfl
  · intro h
    rw [h]
    rfl

lemma ne_empty_of_includes (s sub : String) (h : includesStr s sub = true) (hsub : sub ≠ "") :
    s ≠ "" := by
  intro hs
  subst hs
  apply hsub
  apply (string_toList_eq_nil_iff sub).mp
  apply List.isEmpty_iff.mp
  exact h

lemma startsWithStr_star_of_starSlash (l : String) (h : startsWithStr l "*/" = true) :
    startsWithStr l "*" = true := by
  unfold startsWithStr at *
  rw [List.isPrefixOf_iff_prefix] at *
  exact List.IsPrefix.trans ⟨['/'], rfl⟩ h

lemma isValidDocumentation_go (t : String) (ht : t ≠ "") :
    isValidDocumentation t (some LanguageKey.go) =
      if startsWithStr (trimStr t) "//" && !includesStr (trimStr t) "TODO" &&
         decide (2 < strLen (trimStr t)) &&
         decide (0 < strLen (trimStr (substrFrom (trimStr t) 2))) then
        { isValid := true, doc := some (trimStr t) }
      else { isValid := false } := by
  simp only [isValidDocumentation, if_neg ht]

/-! ## Claim theorems -/

/-- Claim C3 (confirmed): for the Go language the classifier accepts a
comment exactly when the trimmed text starts with the line-comment marker,
does not contain the TODO marker, is longer than two characters and has
some non-whitespace character after the marker; the TODO input is
rejected, and the example sentence is accepted with the trimmed text as
its cleaned form. -/
theorem c3_go_classifier :
    (∀ t : String,
        (isValidDocumentation t (some LanguageKey.go)).isValid = true ↔
          (startsWithStr (trimStr t) "//" = true ∧
           includesStr (trimStr t) "TODO" = false ∧
           2 < strLen (trimStr t) ∧
           ∃ c ∈ (trimStr t).toList.drop 2, c.isWhitespace = false)) ∧
    isValidDocumentation "// TODO: fix this" (some LanguageKey.go) =
      { isValid := false, doc := none } ∧
    isValidDocumentation "// Computes the sum of two integers." (some LanguageKey.go) =
      { isValid := true, doc := some "// Computes the sum of two integers." } := by
  refine ⟨?_, by decide, by decide⟩
  intro t
  have hdrop : (substrFrom (trimStr t) 2).toList = (trimStr t).toList.drop 2 := rfl
  have hiff := strLen_trimStr_pos_iff (substrFrom (trimStr t) 2)
  rw [hdrop] at hiff
  by_cases ht : t = ""
  · subst ht
    decide
  · rw [isValidDocumentation_go t ht]
    split
    next h =>
      obtain ⟨⟨⟨h1, h2⟩, h3⟩, h4⟩ := by simpa only [Bool.and_eq_true] using h
      simp only [show ({ isValid := true, doc := some (trimStr t) } :
        DocumentationValidation).isValid = true from rfl, true_iff]
      exact ⟨h1, by simpa using h2, of_decide_eq_true h3, hiff.mp (of_decide_eq_true h4)⟩
    next h =>
      simp only [show ({ isValid := false } : DocumentationValidation).isValid = false from rfl,
        Bool.false_eq_true, false_iff]
      rintro ⟨h1, h2, h3, h4⟩
      exact h (by simp [h1, h2, h3, hiff.mpr h4])

/-- Claim C8 (confirmed): the classifier is a total function; on every
input it returns either the definite rejection or the definite acceptance
carrying the trimmed text, and a missing language or empty text yields the
rejection immediately. -/
theorem c8_classifier_total (t : String) (l : Option LanguageKey) :
    (isValidDocumentation t l = { isValid := false, doc := none } ∨
     isValidDocumentation t l = { isValid := true, doc := some (trimStr t) }) ∧
    ((l = none ∨ t = "") → isValidDocumentation t l = { isValid := false, doc := none }) := by
  constructor
  · cases l with
    | none => exact Or.inl rfl
    | some lang =>
      by_cases ht : t = ""
      · exact Or.inl (by simp [isValidDocumentation, ht])
      · cases lang <;> simp only [isValidDocumentation, if_neg ht] <;> split <;> simp
  · rintro (hl | ht)
    · subst hl
      rfl
    · subst ht
      cases l with
      | none => rfl
      | some lang => simp [isValidDocumentation]

/-- The flattened extension column of the SUPPORTED_LANGUAGES table. -/
def registeredExtensions : List String := (SUPPORTED_LANGUAGES.map (fun c => c.2)).flatten

/-- Claim C9 (corrected): the registry enumerates six language tags, not
five; each is selected by the fixed case-sensitive extension table, and a
path whose extension matches no entry resolves to none. -/
theorem c9_amended :
    SUPPORTED_LANGUAGES.length = 6 ∧
    (∀ p : String, extname p ∉ registeredExtensions → getLanguageForFile p = none) ∧
    getLanguageForFile "/x/a.Go" = none ∧
    getLanguageForFile "/x/a.go" = some LanguageKey.go := by
  refine ⟨rfl, ?_, by decide, by decide⟩
  intro p hp
  have hfind : SUPPORTED_LANGUAGES.find? (fun c => c.2.contains (extname p)) = none := by
    rw [List.find?_eq_none]
    intro e he hc
    exact hp (List.mem_flatten.mpr ⟨e.2, List.mem_map.mpr ⟨e, he, rfl⟩, List.elem_iff.mp hc⟩)
  simp only [getLanguageForFile, hfind, Option.map_none']

/-- Claim C9, counterexample: the SUPPORTED_LANGUAGES table does not have
five entries (it has six: js, ts, python, rust, java, go). -/
theorem c9_counterexample : ¬ SUPPORTED_LANGUAGES.length = 5 := by decide

/-- Claim C9, witness: a path with an unregistered extension resolves to
none. -/
theorem c9_witness : getLanguageForFile "/home/user/notes.txt" = none :=
  c9_amended.2.1 "/home/user/notes.txt" (by decide)

/-- Claim C6, counterexample: on the five-line input of the claim the
upward scan does mark the function documented, but the stored text is not
the three source comment lines joined (the scan trims each line before
collecting it, losing the leading blanks). -/
theorem c6_counterexample :
    (getJSDocCommentAt "\n/**\n * Doubles x\n */\nfunction double(x) { return x*2 }" 4).hasDoc
      = true ∧
    ¬ (getJSDocCommentAt "\n/**\n * Doubles x\n */\nfunction double(x) { return x*2 }" 4).docText
      = some "/**\n * Doubles x\n */" := by decide

/-- Claim C6 (corrected): on the five-line input the fallback scan
associates the three-line block comment and marks the function documented,
with the stored documentation equal to the three comment lines each
trimmed, joined by newlines. -/
theorem c6_amended :
    getJSDocCommentAt "\n/**\n * Doubles x\n */\nfunction double(x) { return x*2 }" 4 =
      { hasDoc := true, docText := some "/**\n* Doubles x\n*/" } := by decide

/-- The sequence of lines the upward scan inspects: the lines above the
function start, each trimmed, nearest line first, blank lines dropped
(the loop skips a blank line in any state). -/
def upwardLines (lines : List String) (functionStartLine : Nat) : List String :=
  (((lines.take functionStartLine).map trimStr).reverse).filter (fun l => l != "")

/-- Declarative description of what the upward scan collects, for
comparison with the loop: a doc-block opener is collected and ends the
scan; a continuation line is collected and the scan goes on; any other
line ends the scan with nothing more collected.  The collected lines come
out in file order (furthest last seen first). -/
def upwardScanSpec : List String → List String
  | [] => []
  | line :: rest =>
    if startsWithStr line "/**" then [line]
    else if startsWithStr line "*" then upwardScanSpec rest ++ [line]
    else []

lemma getJSDocCommentAux_succ (lines : List String) (n : Nat) (docLines : List String)
    (insideComment : Bool) :
    getJSDocCommentAux lines (n + 1) docLines insideComment =
      (if trimStr (lines.getD n "") = "" then getJSDocCommentAux lines n docLines insideComment
       else if startsWithStr (trimStr (lines.getD n "")) "/**" then
         trimStr (lines.getD n "") :: docLines
       else
         if !startsWithStr (trimStr (lines.getD n "")) "*" &&
            !startsWithStr (trimStr (lines.getD n "")) "*/" && !insideComment then
           (if insideComment || startsWithStr (trimStr (lines.getD n "")) "*" ||
               startsWithStr (trimStr (lines.getD n "")) "*/" then
              trimStr (lines.getD n "") :: docLines
            else docLines)
         else
           getJSDocCommentAux lines n
             (if insideComment || startsWithStr (trimStr (lines.getD n "")) "*" ||
                 startsWithStr (trimStr (lines.getD n "")) "*/" then
                trimStr (lines.getD n "") :: docLines
              else docLines) insideComment) := by
  rfl

lemma upwardScanSpec_cons (line : String) (rest : List String) :
    upwardScanSpec (line :: rest) =
      (if startsWithStr line "/**" then [line]
       else if startsWithStr line "*" then upwardScanSpec rest ++ [line]
       else []) := rfl

lemma getJSDocCommentAux_eq_scan (lines : List String) :
    ∀ (n : Nat) (acc : List String),
      getJSDocCommentAux lines n acc false = upwardScanSpec (upwardLines lines n) ++ acc := by
  intro n
  induction n with
  | zero =>
    intro acc
    simp [getJSDocCommentAux, upwardLines, upwardScanSpec]
  | succ n ih =>
    intro acc
    have htake : lines.take (n + 1) = lines.take n ++ (lines.get? n).toList := by
      simpa using List.take_succ (l := lines) (n := n)
    cases hg : lines.get? n with
    | none =>
      have htrim : trimStr (lines.getD n "") = "" := by
        rw [List.getD_eq_getD_get? lines "" n, hg]
        rfl
      have hup : upwardLines lines (n + 1) = upwardLines lines n := by
        unfold upwardLines
        rw [htake, hg]
        simp
      rw [getJSDocCommentAux_succ, if_pos htrim, hup, ih acc]
    | some x =>
      have hline : lines.getD n "" = x := by
        rw [List.getD_eq_getD_get? lines "" n, hg]
        rfl
      have hup : upwardLines lines (n + 1) =
          ((trimStr x :: ((lines.take n).map trimStr).reverse).filter (fun l => l != "")) := by
        unfold upwardLines
        rw [htake, hg]
        simp
      by_cases hblank : trimStr x = ""
      · have hup2 : upwardLines lines (n + 1) = upwardLines lines n := by
          rw [hup]
          unfold upwardLines
          simp [hblank]
        rw [getJSDocCommentAux_succ, hline, if_pos hblank, hup2, ih acc]
      · have hup2 : upwardLines lines (n + 1) = trimStr x :: upwardLines lines n := by
          rw [hup]
          unfold upwardLines
          simp [hblank]
        rw [getJSDocCommentAux_succ, hline, if_neg hblank, hup2, upwardScanSpec_cons]
        by_cases hopen : startsWithStr (trimStr x) "/**" = true
        · rw [if_pos hopen, if_pos hopen]
          rfl
        · rw [if_neg hopen, if_neg hopen]
          by_cases hstar : startsWithStr (trimStr x) "*" = true
          · have hcollect : (false || startsWithStr (trimStr x) "*" ||
                startsWithStr (trimStr x) "*/") = true := by
              rw [hstar]
              simp
            have hnostop : (!startsWithStr (trimStr x) "*" &&
                !startsWithStr (trimStr x) "*/" && !false) = false := by
              rw [hstar]
              simp
            rw [if_pos hstar, if_neg (by rw [hnostop]; exact Bool.false_ne_true),
              if_pos hcollect, ih (trimStr x :: acc)]
            simp
          · have hstar2 : startsWithStr (trimStr x) "*" = false :=
              Bool.eq_false_iff.mpr hstar
            have hslash2 : startsWithStr (trimStr x) "*/" = false :=
              Bool.eq_false_iff.mpr (fun hcontr =>
                hstar (startsWithStr_star_of_starSlash _ hcontr))
            have hnocollect : (false || startsWithStr (trimStr x) "*" ||
                startsWithStr (trimStr x) "*/") = false := by
              rw [hstar2, hslash2]
              rfl
            have hstop : (!startsWithStr (trimStr x) "*" &&
                !startsWithStr (trimStr x) "*/" && !false) = true := by
              rw [hstar2, hslash2]
              rfl
            rw [if_neg hstar, if_pos hstop, if_neg (by rw [hnocollect]; exact Bool.false_ne_true)]
            rfl

/-- Claim C5 (amended): the fallback upward scan marks a function
documented exactly when it collects at least one line, which happens
either by reaching a line beginning with the doc-block opener or by
collecting a non-empty run of continuation lines before reaching any
other line; a non-continuation line reached with nothing collected yields
the not-found result. -/
theorem c5_amended (sourceCode : String) (functionStartLine : Nat) :
    getJSDocCommentAt sourceCode functionStartLine =
      (match upwardScanSpec (upwardLines (splitLines sourceCode) functionStartLine) with
       | [] => { hasDoc := false, docText := none }
       | d => { hasDoc := true, docText := some (joinLines d) }) := by
  have hmain := getJSDocCommentAux_eq_scan (splitLines sourceCode) functionStartLine []
  rw [List.append_nil] at hmain
  show (if 0 < (getJSDocCommentAux (splitLines sourceCode) functionStartLine [] false).length
        then ({ hasDoc := true,
                docText := some (joinLines (getJSDocCommentAux (splitLines sourceCode)
                  functionStartLine [] false)) } : JSDocResult)
        else { hasDoc := false, docText := none }) = _
  rw [hmain]
  cases upwardScanSpec (upwardLines (splitLines sourceCode) functionStartLine) with
  | nil => rfl
  | cons d rest => simp

/-- Claim C5, counterexample: the claim says the scan yields a found
result only when it reaches a line beginning with the doc-block opener; on
this input no line begins with the opener (the middle line is a stray
continuation line), yet the function is marked documented. -/
theorem c5_counterexample :
    ((splitLines "x = 1 * 2\n * stray\nfunction f() {}").map
        (fun l => startsWithStr (trimStr l) "/**")) = [false, false, false] ∧
    getJSDocCommentAt "x = 1 * 2\n * stray\nfunction f() {}" 2 =
      { hasDoc := true, docText := some "* stray" } := by decide

lemma matchRecord_name (filePath sourceCode : String) (m : QueryMatch)
    (functionNode functionName : Capture) :
    (matchRecord filePath sourceCode m functionNode functionName).name =
      functionName.node.text := rfl

lemma matchRecord_startLine (filePath sourceCode : String) (m : QueryMatch)
    (functionNode functionName : Capture) :
    (matchRecord filePath sourceCode m functionNode functionName).startLine =
      functionNode.node.startRow := rfl

lemma matchNewDocs_eq (filePath sourceCode : String) (m : QueryMatch)
    (functionNode functionName : Capture) :
    matchNewDocs filePath m functionName =
      (if (matchRecord filePath sourceCode m functionNode functionName).isDocumented then
        [{ name := (matchRecord filePath sourceCode m functionNode functionName).name,
           documentation :=
             (matchRecord filePath sourceCode m functionNode functionName).cleanedDoc.getD "",
           filePath := filePath }]
      else []) := by
  unfold matchNewDocs matchRecord
  cases matchFound filePath m with
  | none => rfl
  | some validation => rfl

/-- The dedup invariant of the forEach loop: every emitted record has a
key outside the processed set the loop started from, and the emitted
records carry pairwise distinct keys. -/
lemma processMatchesAux_keys (filePath sourceCode : String) :
    ∀ (ms : List QueryMatch) (processed : List String),
      (∀ r ∈ (processMatchesAux filePath sourceCode ms processed).1,
          funcKeyOf r.name r.startLine ∉ processed) ∧
      (processMatchesAux filePath sourceCode ms processed).1.Pairwise
        (fun a b => funcKeyOf a.name a.startLine ≠ funcKeyOf b.name b.startLine) := by
  intro ms
  induction ms with
  | nil =>
    intro processed
    refine ⟨?_, ?_⟩
    · intro r hr
      simp [processMatchesAux] at hr
    · simp [processMatchesAux]
  | cons m rest ih =>
    intro processed
    rcases hfn : m.captures.find? (fun capture => capture.name == "function") with _ | functionNode
    · have heq : processMatchesAux filePath sourceCode (m :: rest) processed =
          processMatchesAux filePath sourceCode rest processed := by
        simp only [processMatchesAux, hfn]
      rw [heq]
      exact ih processed
    · rcases hnm : m.captures.find? (fun capture => capture.name == "function_name")
        with _ | functionName
      · have heq : processMatchesAux filePath sourceCode (m :: rest) processed =
            processMatchesAux filePath sourceCode rest processed := by
          simp only [processMatchesAux, hfn, hnm]
        rw [heq]
        exact ih processed
      · by_cases hkey :
          funcKeyOf functionName.node.text functionNode.node.startRow ∈ processed
        · have heq : processMatchesAux filePath sourceCode (m :: rest) processed =
              processMatchesAux filePath sourceCode rest processed := by
            simp only [processMatchesAux, hfn, hnm, if_pos hkey]
          rw [heq]
          exact ih processed
        · have heq : processMatchesAux filePath sourceCode (m :: rest) processed =
              (matchRecord filePath sourceCode m functionNode functionName ::
                 (processMatchesAux filePath sourceCode rest
                   (funcKeyOf functionName.node.text functionNode.node.startRow ::
                     processed)).1,
               matchNewDocs filePath m functionName ++
                 (processMatchesAux filePath sourceCode rest
                   (funcKeyOf functionName.node.text functionNode.node.startRow ::
                     processed)).2) := by
            simp only [processMatchesAux, hfn, hnm, if_neg hkey]
          have ihtail := ih (funcKeyOf functionName.node.text functionNode.node.startRow ::
            processed)
          have hreckey :
              funcKeyOf (matchRecord filePath sourceCode m functionNode functionName).name
                  (matchRecord filePath sourceCode m functionNode functionName).startLine =
                funcKeyOf functionName.node.text functionNode.node.startRow := by
            rw [matchRecord_name, matchRecord_startLine]
          rw [heq]
          refine ⟨?_, ?_⟩
          · intro r hr
            rcases List.mem_cons.mp hr with hr0 | hrt
            · rw [hr0, hreckey]
              exact hkey
            · intro hmem
              exact ihtail.1 r hrt (List.mem_cons_of_mem _ hmem)
          · refine List.pairwise_cons.mpr ⟨?_, ihtail.2⟩
            intro b hb heqkey
            apply ihtail.1 b hb
            rw [← heqkey, hreckey]
            exact List.mem_cons_self _ _

/-- The entries appended by the forEach loop are exactly one per emitted
documented record, in emission order. -/
lemma processMatchesAux_docs (filePath sourceCode : String) :
    ∀ (ms : List QueryMatch) (processed : List String),
      (processMatchesAux filePath sourceCode ms processed).2 =
        ((processMatchesAux filePath sourceCode ms processed).1.filter
          (fun r => r.isDocumented)).map
          (fun r => { name := r.name, documentation := r.cleanedDoc.getD "",
                      filePath := filePath }) := by
  intro ms
  induction ms with
  | nil =>
    intro processed
    simp [processMatchesAux]
  | cons m rest ih =>
    intro processed
    rcases hfn : m.captures.find? (fun capture => capture.name == "function") with _ | functionNode
    · have heq : processMatchesAux filePath sourceCode (m :: rest) processed =
          processMatchesAux filePath sourceCode rest processed := by
        simp only [processMatchesAux, hfn]
      rw [heq]
      exact ih processed
    · rcases hnm : m.captures.find? (fun capture => capture.name == "function_name")
        with _ | functionName
      · have heq : processMatchesAux filePath sourceCode (m :: rest) processed =
            processMatchesAux filePath sourceCode rest processed := by
          simp only [processMatchesAux, hfn, hnm]
        rw [heq]
        exact ih processed
      · by_cases hkey :
          funcKeyOf functionName.node.text functionNode.node.startRow ∈ processed
        · have heq : processMatchesAux filePath sourceCode (m :: rest) processed =
              processMatchesAux filePath sourceCode rest processed := by
            simp only [processMatchesAux, hfn, hnm, if_pos hkey]
          rw [heq]
          exact ih processed
        · have heq : processMatchesAux filePath sourceCode (m :: rest) processed =
              (matchRecord filePath sourceCode m functionNode functionName ::
                 (processMatchesAux filePath sourceCode rest
                   (funcKeyOf functionName.node.text functionNode.node.startRow ::
                     processed)).1,
               matchNewDocs filePath m functionName ++
                 (processMatchesAux filePath sourceCode rest
                   (funcKeyOf functionName.node.text functionNode.node.startRow ::
                     processed)).2) := by
            simp only [processMatchesAux, hfn, hnm, if_neg hkey]
          rw [heq]
          rw [matchNewDocs_eq filePath sourceCode m functionNode functionName]
          rw [List.filter_cons]
          cases hdoc : (matchRecord filePath sourceCode m functionNode functionName).isDocumented
          · simp [ih (funcKeyOf functionName.node.text functionNode.node.startRow :: processed)]
          · simp [ih (funcKeyOf functionName.node.text functionNode.node.startRow :: processed)]

/-- Claim C1 (amended): within one input file the tree extraction engine
emits no two FunctionRecords sharing the same (name, startLine) pair (the
forEach loop keys every match on name and start row and skips keys already
processed, so the first match wins); the fallback engine performs no such
deduplication, see the counterexample. -/
theorem c1_tree_engine_dedup (queryMatches : List QueryMatch) (filePath sourceCode : String) :
    (processMatchesAndCollect queryMatches filePath sourceCode).1.Pairwise
      (fun a b => ¬(a.name = b.name ∧ a.startLine = b.startLine)) := by
  have h := (processMatchesAux_keys filePath sourceCode queryMatches []).2
  exact h.imp (fun hk hab => hk (by rw [hab.1, hab.2]))

/-- Claim C2 (amended): in the tree extraction engine the appended
documentedFunctions entries are exactly one per emitted documented record,
in first-seen order, and the emitted records are pairwise distinct in
(name, startLine); the fallback engine can append two entries for the
same function, see the counterexample. -/
theorem c2_tree_engine_append_once (queryMatches : List QueryMatch)
    (filePath sourceCode : String) :
    (processMatchesAndCollect queryMatches filePath sourceCode).2 =
      ((processMatchesAndCollect queryMatches filePath sourceCode).1.filter
        (fun r => r.isDocumented)).map
        (fun r => { name := r.name, documentation := r.cleanedDoc.getD "",
                    filePath := filePath }) ∧
    (processMatchesAndCollect queryMatches filePath sourceCode).1.Pairwise
      (fun a b => ¬(a.name = b.name ∧ a.startLine = b.startLine)) := by
  refine ⟨processMatchesAux_docs filePath sourceCode queryMatches [], ?_⟩
  have h := (processMatchesAux_keys filePath sourceCode queryMatches []).2
  exact h.imp (fun hk hab => hk (by rw [hab.1, hab.2]))

/-- Source text of the two-line program `const f = function f() ...` with
a doc comment above it: a named function expression assigned to a binding
of the same name.  The linter AST for it is built below. -/
def cexSource : String := "/** doc */\nconst f = function f() { return 1 }"

/-- The FunctionExpression node of the program above, with its own
identifier f: this is the ESTree shape the parser produces for a named
function expression (loc lines are one-based). -/
def cexFunctionExpression : JSVal :=
  .obj [("type", .str "FunctionExpression"),
        ("id", .obj [("type", .str "Identifier"), ("name", .str "f")]),
        ("loc", .obj [("start", .obj [("line", .num 2)]), ("end", .obj [("line", .num 2)])])]

/-- The VariableDeclarator node f = function f() of the program above. -/
def cexDeclarator : JSVal :=
  .obj [("type", .str "VariableDeclarator"),
        ("id", .obj [("type", .str "Identifier"), ("name", .str "f")]),
        ("init", cexFunctionExpression),
        ("loc", .obj [("start", .obj [("line", .num 2)]), ("end", .obj [("line", .num 2)])])]

/-- The Program root of the AST for cexSource. -/
def cexAST : JSVal :=
  .obj [("type", .str "Program"),
        ("body", .arr [.obj [("type", .str "VariableDeclaration"),
                             ("declarations", .arr [cexDeclarator]),
                             ("loc", .obj [("start", .obj [("line", .num 2)]),
                                           ("end", .obj [("line", .num 2)])])]])]

/-- Claim C1, counterexample: the fallback engine emits two
FunctionRecords with the same (name, startLine) for one input file.  The
walk matches both the VariableDeclarator (a binding whose initializer is a
function expression) and the FunctionExpression inside it (a named
function expression); both carry the name f and start on the same line,
and no deduplication happens on this path. -/
theorem c1_fallback_counterexample :
    ((processJavaScriptAST cexAST cexSource "/proj/a.js").1.map
        (fun f => (f.name, f.startLine))) = [("f", 1), ("f", 1)] ∧
    ¬ (processJavaScriptAST cexAST cexSource "/proj/a.js").1.Pairwise
        (fun a b => ¬(a.name = b.name ∧ a.startLine = b.startLine)) := by decide

/-- Claim C2, counterexample: on the same input the fallback engine
appends two DocumentedFunction entries with the same (name, filePath) for
the one documented function, one per matched AST shape. -/
theorem c2_fallback_counterexample :
    (processJavaScriptAST cexAST cexSource "/proj/a.js").2 =
      [{ name := "f", documentation := "/** doc */", filePath := "/proj/a.js" },
       { name := "f", documentation := "/** doc */", filePath := "/proj/a.js" }] := by decide

/-- The capture shape of a match of the with-docstring sub-pattern of the
Python query in getFunctionQuery: the function_definition node as
function, its identifier as function_name, and the (string) node that is
the first statement of the body — the docstring — as doc.  The doc
capture text is the source text of the string literal, quotes included. -/
def pyMatchWithDoc (fname docText : String) (r1 r2 dr : Nat) : QueryMatch :=
  ⟨[⟨"function", ⟨"function_definition", "", r1, r2⟩⟩,
    ⟨"function_name", ⟨"identifier", fname, r1, r1⟩⟩,
    ⟨"doc", ⟨"string", docText, dr, dr⟩⟩]⟩

/-- The capture shape of a match of the bare sub-pattern of the Python
query: function and function_name only, no doc capture — the shape
produced for a function with no docstring and no preceding comment. -/
def pyMatchBare (fname : String) (r1 r2 : Nat) : QueryMatch :=
  ⟨[⟨"function", ⟨"function_definition", "", r1, r2⟩⟩,
    ⟨"function_name", ⟨"identifier", fname, r1, r1⟩⟩]⟩

/-- Claim C4 (amended): in a Python file, a function whose docstring
source text contains the triple-quote marker is emitted with
isDocumented true even with no preceding comment; a function whose match
carries no doc capture (first statement not a string literal, no
preceding comment) is emitted with isDocumented false.  A docstring
without a triple-quote marker does not qualify, see the counterexample. -/
theorem c4_amended :
    (∀ (fname docText src path : String) (r1 r2 dr : Nat),
        includesStr docText "\"\"\"" = true →
        extname path = ".py" →
        ((processMatchesAndCollect [pyMatchWithDoc fname docText r1 r2 dr] path src).1.map
            (fun f => (f.name, f.isDocumented))) = [(fname, true)]) ∧
    (∀ (fname src path : String) (r1 r2 : Nat),
        extname path = ".py" →
        ((processMatchesAndCollect [pyMatchBare fname r1 r2] path src).1.map
            (fun f => (f.name, f.isDocumented))) = [(fname, false)]) := by
  constructor
  · intro fname docText src path r1 r2 dr hinc hext
    have hlang : getLanguageForFile path = some LanguageKey.python := by
      simp only [getLanguageForFile, hext]
      rfl
    have hne : docText ≠ "" := ne_empty_of_includes docText "\"\"\"" hinc (by decide)
    have hvalid : isValidDocumentation docText (some LanguageKey.python) =
        { isValid := true, doc := some (trimStr docText) } := by
      simp [isValidDocumentation, if_neg hne, hinc]
    simp [processMatchesAndCollect, processMatchesAux, pyMatchWithDoc, matchRecord,
      matchFound, firstValidDoc, hlang, hvalid]
  · intro fname src path r1 r2 _hext
    simp [processMatchesAndCollect, processMatchesAux, pyMatchBare, matchRecord,
      matchFound, firstValidDoc]

/-- Claim C4, counterexample: a Python function whose body starts with the
string literal docstring written with plain double quotes — source text
"doc" including the quotes, hence a standalone string literal expression —
is emitted with isDocumented false: the classifier accepts a docstring
only when its text contains a triple-quote marker. -/
theorem c4_counterexample :
    ((processMatchesAndCollect [pyMatchWithDoc "f" "\"doc\"" 0 1 1] "/proj/a.py"
        "def f():\n    \"doc\"").1.map
        (fun f => (f.name, f.isDocumented, f.cleanedDoc))) = [("f", false, none)] := by decide

/-- Claim C4, witness: a triple-quoted docstring yields a documented
record, a match with no doc capture an undocumented one. -/
theorem c4_witness :
    ((processMatchesAndCollect [pyMatchWithDoc "f" "\"\"\"doc\"\"\"" 0 1 1] "/proj/a.py"
        "def f():\n    \"\"\"doc\"\"\"").1.map
        (fun f => (f.name, f.isDocumented))) = [("f", true)] ∧
    ((processMatchesAndCollect [pyMatchBare "g" 0 1] "/proj/a.py"
        "def g():\n    return 0").1.map
        (fun f => (f.name, f.isDocumented))) = [("g", false)] :=
  ⟨c4_amended.1 "f" "\"\"\"doc\"\"\"" "def f():\n    \"\"\"doc\"\"\"" "/proj/a.py" 0 1 1
      (by decide) (by decide),
   c4_amended.2 "g" "def g():\n    return 0" "/proj/a.py" 0 1 (by decide)⟩

/-- Claim C7 (confirmed): a parse failure is isolated at the per-file
boundary.  Each file of a scan contributes exactly the records of its own
processing; a file whose read-parse-query step fails contributes zero
records and one diagnostic naming it; in a three-file scan whose second
file fails, files one and three still produce their records and the only
diagnostic names file two. -/
theorem c7_parse_failure_isolation :
    (∀ files : List FileInput,
        (scanFiles files).1 = files.map (fun f => (processFileModel f).1.1)) ∧
    (∀ (f : FileInput) (e : String), f.parsed = .error e →
        (processFileModel f).1.1 = [] ∧
        (processFileModel f).2 = some ("Error processing " ++ f.path ++ ": " ++ e)) ∧
    (∀ (f1 f2 f3 : FileInput) (m1 m3 : List QueryMatch) (e : String),
        f1.parsed = .ok m1 → f2.parsed = .error e → f3.parsed = .ok m3 →
        (scanFiles [f1, f2, f3]).1 =
          [(processMatchesAndCollect m1 f1.path f1.sourceCode).1, [],
           (processMatchesAndCollect m3 f3.path f3.sourceCode).1] ∧
        (scanFiles [f1, f2, f3]).2.2 = ["Error processing " ++ f2.path ++ ": " ++ e]) := by
  refine ⟨?_, ?_, ?_⟩
  · intro files
    induction files with
    | nil => rfl
    | cons f rest ih => simp [scanFiles, ih]
  · intro f e he
    simp [processFileModel, he]
  · intro f1 f2 f3 m1 m3 e h1 h2 h3
    constructor
    · simp [scanFiles, processFileModel, h1, h2, h3]
    · simp [scanFiles, processFileModel, h1, h2, h3]

/-- Claim C7, witness: a concrete three-file scan whose second file fails
to parse still yields the records of files one and three and reports the
one diagnostic naming file two. -/
theorem c7_witness :
    (scanFiles
        [⟨"/p/one.go", "func A() {}",
          .ok [⟨[⟨"function", ⟨"function_declaration", "func A() {}", 0, 0⟩⟩,
                 ⟨"function_name", ⟨"identifier", "A", 0, 0⟩⟩]⟩]⟩,
         ⟨"/p/two.go", "func B(", .error "Parse error"⟩,
         ⟨"/p/three.go", "func C() {}",
          .ok [⟨[⟨"function", ⟨"function_declaration", "func C() {}", 0, 0⟩⟩,
                 ⟨"function_name", ⟨"identifier", "C", 0, 0⟩⟩]⟩]⟩]).1 =
      [(processMatchesAndCollect
          [⟨[⟨"function", ⟨"function_declaration", "func A() {}", 0, 0⟩⟩,
             ⟨"function_name", ⟨"identifier", "A", 0, 0⟩⟩]⟩] "/p/one.go" "func A() {}").1,
       [],
       (processMatchesAndCollect
          [⟨[⟨"function", ⟨"function_declaration", "func C() {}", 0, 0⟩⟩,
             ⟨"function_name", ⟨"identifier", "C", 0, 0⟩⟩]⟩] "/p/three.go" "func C() {}").1] ∧
    (scanFiles
        [⟨"/p/one.go", "func A() {}",
          .ok [⟨[⟨"function", ⟨"function_declaration", "func A() {}", 0, 0⟩⟩,
                 ⟨"function_name", ⟨"identifier", "A", 0, 0⟩⟩]⟩]⟩,
         ⟨"/p/two.go", "func B(", .error "Parse error"⟩,
         ⟨"/p/three.go", "func C() {}",
          .ok [⟨[⟨"function", ⟨"function_declaration", "func C() {}", 0, 0⟩⟩,
                 ⟨"function_name", ⟨"identifier", "C", 0, 0⟩⟩]⟩]⟩]).2.2 =
      ["Error processing /p/two.go: Parse error"] :=
  c7_parse_failure_isolation.2.2 _ _ _ _ _ _ rfl rfl rfl

/-- The capture-name to node-type assignments transcribed from the Java
branch of getFunctionQuery: in all four sub-patterns the doc capture is
written on a block_comment node only, the function capture on a
method_declaration or constructor_declaration, the function_name capture
on an identifier. -/
def matchConformsToJavaQuery (m : QueryMatch) : Bool :=
  m.captures.all (fun c =>
    (c.name != "doc" || c.node.nodeType == "block_comment") &&
    (c.name != "function" ||
      (c.node.nodeType == "method_declaration" ||
       c.node.nodeType == "constructor_declaration")) &&
    (c.name != "function_name" || c.node.nodeType == "identifier"))

lemma matchRecord_undocumented (filePath sourceCode : String) (m : QueryMatch)
    (functionNode functionName : Capture)
    (h : m.captures.filter (fun capture => capture.name == "doc") = []) :
    (matchRecord filePath sourceCode m functionNode functionName).isDocumented = false ∧
    (matchRecord filePath sourceCode m functionNode functionName).cleanedDoc = none := by
  unfold matchRecord matchFound
  rw [h]
  simp [firstValidDoc]

/-- Records of matches holding no doc capture come out undocumented. -/
lemma processMatchesAux_all_undocumented (filePath sourceCode : String) :
    ∀ (ms : List QueryMatch) (processed : List String),
      (∀ m ∈ ms, m.captures.filter (fun capture => capture.name == "doc") = []) →
      ∀ f ∈ (processMatchesAux filePath sourceCode ms processed).1,
        f.isDocumented = false ∧ f.cleanedDoc = none := by
  intro ms
  induction ms with
  | nil =>
    intro processed hnodoc f hf
    simp [processMatchesAux] at hf
  | cons m rest ih =>
    intro processed hnodoc f hf
    rcases hfn : m.captures.find? (fun capture => capture.name == "function") with _ | functionNode
    · rw [show processMatchesAux filePath sourceCode (m :: rest) processed =
            processMatchesAux filePath sourceCode rest processed from by
          simp only [processMatchesAux, hfn]] at hf
      exact ih processed (fun m2 hm2 => hnodoc m2 (List.mem_cons_of_mem _ hm2)) f hf
    · rcases hnm : m.captures.find? (fun capture => capture.name == "function_name")
        with _ | functionName
      · rw [show processMatchesAux filePath sourceCode (m :: rest) processed =
              processMatchesAux filePath sourceCode rest processed from by
            simp only [processMatchesAux, hfn, hnm]] at hf
        exact ih processed (fun m2 hm2 => hnodoc m2 (List.mem_cons_of_mem _ hm2)) f hf
      · by_cases hkey :
          funcKeyOf functionName.node.text functionNode.node.startRow ∈ processed
        · rw [show processMatchesAux filePath sourceCode (m :: rest) processed =
                processMatchesAux filePath sourceCode rest processed from by
              simp only [processMatchesAux, hfn, hnm, if_pos hkey]] at hf
          exact ih processed (fun m2 hm2 => hnodoc m2 (List.mem_cons_of_mem _ hm2)) f hf
        · rw [show processMatchesAux filePath sourceCode (m :: rest) processed =
                (matchRecord filePath sourceCode m functionNode functionName ::
                   (processMatchesAux filePath sourceCode rest
                     (funcKeyOf functionName.node.text functionNode.node.startRow ::
                       processed)).1,
                 matchNewDocs filePath m functionName ++
                   (processMatchesAux filePath sourceCode rest
                     (funcKeyOf functionName.node.text functionNode.node.startRow ::
                       processed)).2) from by
              simp only [processMatchesAux, hfn, hnm, if_neg hkey]] at hf
          rcases List.mem_cons.mp hf with hf0 | hft
          · rw [hf0]
            exact matchRecord_undocumented filePath sourceCode m functionNode functionName
              (hnodoc m (List.mem_cons_self _ _))
          · exact ih (funcKeyOf functionName.node.text functionNode.node.startRow :: processed)
              (fun m2 hm2 => hnodoc m2 (List.mem_cons_of_mem _ hm2)) f hft

/-- Claim C10 (confirmed): the Java query captures only block_comment
nodes as documentation candidates, so when the comments available for a
method or constructor are line comments, every match is doc-capture-free
and every emitted record has isDocumented false and no cleanedDoc — even
though the Java classifier by itself accepts a comment whose trimmed text
starts with the line-comment marker. -/
theorem c10_java_line_comments :
    (∀ (queryMatches : List QueryMatch) (path src : String),
        (∀ m ∈ queryMatches, matchConformsToJavaQuery m = true) →
        (∀ m ∈ queryMatches, ∀ c ∈ m.captures, c.name = "doc" →
          c.node.nodeType = "line_comment") →
        ∀ f ∈ (processMatchesAndCollect queryMatches path src).1,
          f.isDocumented = false ∧ f.cleanedDoc = none) ∧
    (∀ t : String, t ≠ "" → startsWithStr (trimStr t) "//" = true →
        (isValidDocumentation t (some LanguageKey.java)).isValid = true) := by
  constructor
  · intro queryMatches path src hconform hline f hf
    have hnodoc : ∀ m ∈ queryMatches,
        m.captures.filter (fun capture => capture.name == "doc") = [] := by
      intro m hm
      rw [List.filter_eq_nil_iff]
      intro c hc hbeq
      have hname : c.name = "doc" := by simpa using hbeq
      have h1 := hconform m hm
      rw [matchConformsToJavaQuery, List.all_eq_true] at h1
      have h3 := h1 c hc
      have h2 := hline m hm c hc hname
      simp [hname, h2] at h3
    exact processMatchesAux_all_undocumented path src queryMatches [] hnodoc f hf
  · intro t htne hstart
    simp [isValidDocumentation, if_neg htne, hstart]

/-- The match list the Java query yields for a method preceded only by
line comments: one match per bare sub-pattern with the function and
function_name captures and no doc capture, since a line_comment node can
never be bound by the (block_comment) doc pattern. -/
def javaLineCommentMatches : List QueryMatch :=
  [⟨[⟨"function", ⟨"method_declaration", "void foo()", 3, 4⟩⟩,
     ⟨"function_name", ⟨"identifier", "foo", 3, 3⟩⟩]⟩]

/-- Claim C10, witness: the concrete match list above conforms to the
Java query shape, both hypotheses of the main conjunct are discharged on
it concretely, every record it yields comes out undocumented, and the
classifier by itself does accept a line comment. -/
theorem c10_witness :
    javaLineCommentMatches.all (fun m => matchConformsToJavaQuery m) = true ∧
    ((processMatchesAndCollect javaLineCommentMatches "/x/A.java"
        "class A\n  // helper\n  // adds two numbers\n  void foo()\nend").1.all
      (fun f => !f.isDocumented && f.cleanedDoc == none)) = true ∧
    (isValidDocumentation "// adds two numbers" (some LanguageKey.java)).isValid = true := by
  refine ⟨by decide, ?_, c10_java_line_comments.2 "// adds two numbers" (by decide) (by decide)⟩
  apply List.all_eq_true.mpr
  intro f hf
  have h := c10_java_line_comments.1 javaLineCommentMatches "/x/A.java"
    "class A\n  // helper\n  // adds two numbers\n  void foo()\nend"
    (by decide) (by decide) f hf
  simp [h.1, h.2]

end Reppy
